import Mathlib

/-!
Verification of the gas-price oracle bot (TypeScript sources: `fetcher.ts`,
`publisher.ts`, `config.ts`, `index.ts`).

Modelling conventions:
* JavaScript `BigInt` values are modelled as `Int`; JS `BigInt` division
  truncates toward zero, which is `Int.tdiv`.
* The wei values travel through the TS code as canonical decimal strings
  produced by `BigInt.prototype.toString`; since that representation is a
  bijection with the integers (the string 0 corresponds exactly to the value
  0), the model carries the integer value itself.
* The per-source history `Map<string, string[]>` is modelled as a total
  function `String → List Int` (absent key ↦ `[]`, matching
  `priceHistory.get(name) || []`).
* Asynchronous RPC / transaction calls are modelled by an explicit outcome
  parameter: the code around them is translated as-is, with the outcome of the
  external call an input of the function.
-/

namespace OracleBot

/-- Division of JavaScript `BigInt` values: truncation toward zero. -/
def jsDiv (a b : Int) : Int := Int.tdiv a b

/-- Record returned by `fetchChainGasPrice` (interface `GasPriceData` in
`fetcher.ts`, wei variant): chain name, current price, 24h high/low and a
timestamp.  Wei magnitudes are exact integers (JS `BigInt`). -/
structure GasPriceData where
  chain : String
  priceWei : Int
  high24h : Int
  low24h : Int
  timestamp : Int
  deriving Repr, DecidableEq

/-- Bound on the per-source price history (`MAX_HISTORY_SIZE` in `fetcher.ts`). -/
def MAX_HISTORY_SIZE : Nat := 1000

/-- History update performed inside `fetchChainGasPrice`:
`history.push(priceWei); if (history.length > MAX_HISTORY_SIZE) history = history.slice(-MAX_HISTORY_SIZE)`.
`slice(-k)` keeps the last `k` elements, i.e. drops `length - k` from the front. -/
def appendHistory (history : List Int) (priceWei : Int) : List Int :=
  let h := history ++ [priceWei]
  if h.length > MAX_HISTORY_SIZE then h.drop (h.length - MAX_HISTORY_SIZE) else h

/-- Fold step of the `for (const price of prices)` loop in `calculateStats`:
`if (p > max) max = p; if (p < min) min = p`. -/
def statsFold (acc : Int × Int) (p : Int) : Int × Int :=
  (if p > acc.1 then p else acc.1, if p < acc.2 then p else acc.2)

/-- Translation of `calculateStats` (`fetcher.ts`, wei variant): on an empty
list the sentinel pair of zero strings, otherwise `max`/`min` initialised
with `prices[0]` and updated over every element.  Result is `(max, min)`. -/
def calculateStats (prices : List Int) : Int × Int :=
  match prices with
  | [] => (0, 0)
  | p0 :: _ => prices.foldl statsFold (p0, p0)

/-- Translation of `detectBuySignal` (`fetcher.ts`, wei variant).  The TS code
computes `savings` as a BigInt quotient, then
`Number(savings)` and `Math.round(savings)`; since the quotient is an integer
and (for the non-negative magnitudes the fetcher produces) bounded by 100 in
absolute value, both conversions are exact, so the model keeps the integer.
Result is `(isBuySignal, savingsPercent)`. -/
def detectBuySignal (data : GasPriceData) : Bool × Int :=
  let price := data.priceWei
  let high := data.high24h
  let low := data.low24h
  let avg := jsDiv (high + low) 2
  if avg = 0 ∨ price ≥ avg then (false, 0)
  else
    let savings := jsDiv ((avg - price) * 100) avg
    (savings > 10, savings)

/-- Reference definition of the buy signal, written from the specification
text: average is `(high + low) / 2` by integer floor division; if the average
is zero or `priceValue >= average` the result is `(false, 0)`; otherwise
`savingsPercent = ((average - priceValue) * 100) / average` in the integer
domain and `isSignal = savingsPercent > 10`. -/
def detectBuySignalSpec (data : GasPriceData) : Bool × Int :=
  let average := Int.fdiv (data.high24h + data.low24h) 2
  if average = 0 ∨ data.priceWei ≥ average then (false, 0)
  else
    let savingsPercent := Int.fdiv ((average - data.priceWei) * 100) average
    (savingsPercent > 10, savingsPercent)

/-- Per-chain entry of the `chains` array in `config.ts`. -/
structure ChainConfig where
  name : String
  rpcUrl : String
  enabled : Bool

/-- Outcome of the external RPC call inside `fetchChainGasPrice`. -/
inductive FetchOutcome where
  /-- `eth_gasPrice` returned a truthy value whose `BigInt` parse is this value. -/
  | ok (gasPrice : Int)
  /-- Falsy response: the `if (!gasPrice)` early return. -/
  | noData
  /-- A thrown error (network failure, malformed response, ...), handled by the
  `catch` block. -/
  | error
  deriving Repr, DecidableEq

/-- Successful-fetch discriminator for a `FetchOutcome`. -/
def FetchOutcome.isOk : FetchOutcome → Bool
  | .ok _ => true
  | .noData => false
  | .error => false

/-- Model of the module-level `priceHistory: Map<string, string[]>`: a total
function, absent keys mapped to `[]` (the `priceHistory.get(chain.name) || []`
read). -/
def HistoryMap := String → List Int

/-- Translation of `fetchChainGasPrice` (`fetcher.ts`, wei variant).  The RPC
outcome is an explicit input.  On failure (`noData` or a thrown error) the
function returns `null` and the history map is untouched; on success the price
is appended to the bounded history of that chain, the map is updated there,
and the record is assembled from `calculateStats` of the updated history. -/
def fetchChainGasPrice (chainName : String) (outcome : FetchOutcome) (timestamp : Int)
    (hist : HistoryMap) : Option GasPriceData × HistoryMap :=
  match outcome with
  | .noData => (none, hist)
  | .error => (none, hist)
  | .ok gasPrice =>
      let priceWei := gasPrice
      let history := appendHistory (hist chainName) priceWei
      let hist' : HistoryMap := fun n => if n = chainName then history else hist n
      let stats := calculateStats history
      (some { chain := chainName, priceWei := priceWei, high24h := stats.1,
              low24h := stats.2, timestamp := timestamp }, hist')

/-- Sequencing of the per-chain fetches of `fetchAllGasPrices`
(`Promise.all(enabledChains.map(chain => fetchChainGasPrice(chain)))`): one
`Option GasPriceData` per chain in order, threading the shared history map
(each chain touches only its own key). -/
def fetchSeq (outcomes : String → FetchOutcome) (timestamp : Int) :
    List ChainConfig → HistoryMap → List (Option GasPriceData) × HistoryMap
  | [], hist => ([], hist)
  | c :: cs, hist =>
      let step := fetchChainGasPrice c.name (outcomes c.name) timestamp hist
      let rest := fetchSeq outcomes timestamp cs step.2
      (step.1 :: rest.1, rest.2)

/-- Translation of `fetchAllGasPrices` (`fetcher.ts`, wei variant): filter the
enabled chains, fetch each, and keep the non-`null` results
(`results.filter((r): r is GasPriceData => r !== null)`). -/
def fetchAllGasPrices (chains : List ChainConfig) (outcomes : String → FetchOutcome)
    (timestamp : Int) (hist : HistoryMap) : List GasPriceData × HistoryMap :=
  let enabledChains := chains.filter (fun c => c.enabled)
  let results := fetchSeq outcomes timestamp enabledChains hist
  (results.1.filterMap id, results.2)

/-- Translation of `publishSingleUpdate` (`publisher.ts`, wei variant),
projected onto the transaction it builds: `none` models returning `null` from
the zero-price guard, before any `Transaction` is built or submitted; `some`
carries the `(chain, priceWei, high24h, low24h)` payload handed to the
`update_gas_price` move call.  The network outcome of the submission is
irrelevant here and abstracted away. -/
def publishSingleUpdate (data : GasPriceData) : Option (String × Int × Int × Int) :=
  if data.priceWei = 0 then none
  else some (data.chain, data.priceWei, data.high24h, data.low24h)

/-- Translation of `publishBatchUpdate` (`publisher.ts`, wei variant),
projected onto the transaction it builds: zero-price records are filtered out
(the filter keeps records whose wei string differs from the zero string); if
nothing remains the function
returns `null` before building a transaction; otherwise the payload is the
parallel vectors of chain names and wei prices of the surviving records. -/
def publishBatchUpdate (dataArray : List GasPriceData) : Option (List String × List Int) :=
  let validData := dataArray.filter (fun d => decide (d.priceWei ≠ 0))
  if validData.length = 0 then none
  else some (validData.map (fun d => d.chain), validData.map (fun d => d.priceWei))

/-- Sui-sink part of the `Config` interface in `config.ts`. -/
structure SuiConfig where
  network : String
  privateKey : String
  packageId : String
  oracleObjectId : String
  adminCapId : String

/-- Configuration record (`Config` in `config.ts`). -/
structure Config where
  sui : SuiConfig
  chains : List ChainConfig
  updateIntervalMs : Int
  batchSize : Nat

/-- Character-list core of JavaScript `String.prototype.includes`. -/
def charsInclude (pat : List Char) : List Char → Bool
  | [] => pat.isEmpty
  | c :: rest => pat.isPrefixOf (c :: rest) || charsInclude pat rest

/-- JavaScript `s.includes(pat)`. -/
def strIncludes (s pat : String) : Bool := charsInclude pat.data s.data

/-- Search pattern of the demo-mode `includes` filter in `validateConfig`. -/
def demoModeTag : String := "demo mode"

/-- Translation of `validateConfig` (`config.ts`): collect the error messages
(an empty `privateKey` string is the falsy `!config.sui.privateKey` check,
the identifier checks compare against the 0x0 default), then declare the
configuration valid exactly when no error other than the demo-mode warning
remains (the filter drops every error message mentioning demo mode and the
length of the remainder is compared with zero).  Result is `(valid, errors)`. -/
def validateConfig (config : Config) : Bool × List String :=
  let errors : List String :=
    (if config.sui.privateKey = "" then ["SUI_PRIVATE_KEY is required"] else []) ++
    (if config.sui.packageId = "0x0" then
      ["ORACLE_PACKAGE_ID not set (will run in demo mode)"] else []) ++
    (if config.sui.oracleObjectId = "0x0" then ["ORACLE_OBJECT_ID not set"] else []) ++
    (if config.sui.adminCapId = "0x0" then ["ADMIN_CAP_ID not set"] else [])
  ((errors.filter (fun e => !(strIncludes e demoModeTag))).length == 0, errors)

/-- Outcomes of the straight-line prefix of `main` (`index.ts`), up to the
point where the update loop is started. -/
inductive MainOutcome where
  /-- `process.exit(1)` after `validateConfig` reported the config invalid. -/
  | exitConfigError
  /-- The `SuiPublisher` constructor threw on a malformed private key and the
  fatal `main().catch` handler called `process.exit(1)`. -/
  | exitKeyParse
  /-- `process.exit(1)` after the oracle health check failed. -/
  | exitHealthCheck
  /-- Execution reached `Starting update loop`: the scheduling loop begins. -/
  | entersLoop
  deriving Repr, DecidableEq

/-- Translation of the pre-loop control flow of `main` (`index.ts`):
validation gate, publisher construction (its key parsing an explicit outcome
input), then — only outside demo mode — the oracle health check (its outcome
also an input); if none of these exits, the update loop is entered. -/
def mainOutcome (config : Config) (keyParseOk healthOk : Bool) : MainOutcome :=
  if !(validateConfig config).1 then .exitConfigError
  else if !keyParseOk then .exitKeyParse
  else if config.sui.packageId != "0x0" && !healthOk then .exitHealthCheck
  else .entersLoop

/-- Outcome of one execution of the `runUpdateCycle` body (`index.ts`). -/
inductive CycleOutcome where
  /-- `prices.length === 0`: the early `return`, no counter touched. -/
  | emptyBatch
  /-- Non-empty batch and no exception: `updateCount++` runs. -/
  | success
  /-- An exception escaped the `try` block: the `catch` runs `errorCount++`. -/
  | exn
  deriving Repr, DecidableEq

/-- Classification performed by the `runUpdateCycle` body: the fetch phase is
total (every per-source failure is absorbed inside `fetchChainGasPrice`), so
the cycle outcome is determined by the fetched batch and by whether the
publish phase threw. -/
def runUpdateCycleOutcome (batch : List GasPriceData) (publishThrew : Bool) : CycleOutcome :=
  if batch.isEmpty then .emptyBatch
  else if publishThrew then .exn
  else .success

/-- Observable state of the scheduling loop in `main`: the number of
`runUpdateCycle` invocations currently in flight, plus the two counters. -/
structure BotState where
  inFlight : Nat
  updateCount : Nat
  errorCount : Nat
  deriving Repr, DecidableEq

/-- State at `Starting update loop`. -/
def initialBotState : BotState := ⟨0, 0, 0⟩

/-- Timer tick of the scheduling loop.  `index.ts` installs the cycle directly:
`setInterval(runUpdateCycle, config.updateIntervalMs)` — the handler contains
no in-flight check, so every tick unconditionally begins a new cycle. -/
def tickStep (s : BotState) : BotState :=
  { s with inFlight := s.inFlight + 1 }

/-- Completion of an in-flight cycle, applying the counter updates of the
`runUpdateCycle` body: `updateCount++` on success, `errorCount++` in the
`catch`, neither on an empty batch. -/
def completeStep (s : BotState) (o : CycleOutcome) : BotState :=
  { inFlight := s.inFlight - 1
    updateCount := s.updateCount + (if o = CycleOutcome.success then 1 else 0)
    errorCount := s.errorCount + (if o = CycleOutcome.exn then 1 else 0) }

/-- Events of the event-loop model of the scheduler. -/
inductive SchedEvent where
  | tick
  | complete (o : CycleOutcome)
  deriving Repr, DecidableEq

/-- One event-loop step of the scheduler. -/
def schedStep (s : BotState) : SchedEvent → BotState
  | .tick => tickStep s
  | .complete o => completeStep s o

/-- Execution of the scheduling loop on a sequence of events. -/
def runSched (events : List SchedEvent) : BotState :=
  events.foldl schedStep initialBotState

/-! Helper lemmas. -/

/-- Appending to a window that holds the last `MAX_HISTORY_SIZE` elements of
`p` yields the window holding the last `MAX_HISTORY_SIZE` elements of
`p ++ [v]`. -/
theorem appendHistory_drop (p : List Int) (v : Int) :
    appendHistory (p.drop (p.length - MAX_HISTORY_SIZE)) v
      = (p ++ [v]).drop ((p ++ [v]).length - MAX_HISTORY_SIZE) := by
  unfold appendHistory MAX_HISTORY_SIZE
  by_cases hn : p.length < 1000
  · have h0 : p.length - 1000 = 0 := by omega
    have h1 : (p ++ [v]).length = p.length + 1 := by simp
    have h2 : (p ++ [v]).length - 1000 = 0 := by omega
    rw [h0, List.drop_zero, h2, List.drop_zero, if_neg (by omega)]
  · have hq : (p.drop (p.length - 1000)).length = 1000 := by
      rw [List.length_drop]; omega
    have hlen : (p.drop (p.length - 1000) ++ [v]).length = 1001 := by
      simp [hq]
    rw [if_pos (by omega), hlen]
    have h1 : (1001 : Nat) - 1000 = 1 := by norm_num
    rw [h1, List.drop_append_of_le_length (by omega), List.drop_drop]
    have h2 : (p ++ [v]).length - 1000 = p.length - 1000 + 1 := by
      simp; omega
    rw [h2, List.drop_append_of_le_length (by omega)]

/-- Iterating `appendHistory` from the empty window retains exactly the most
recent `MAX_HISTORY_SIZE` values. -/
theorem foldl_appendHistory (vals : List Int) :
    vals.foldl appendHistory [] = vals.drop (vals.length - MAX_HISTORY_SIZE) := by
  induction vals using List.reverseRecOn with
  | nil => rfl
  | append_singleton vs v ih =>
      rw [List.foldl_append, List.foldl_cons, List.foldl_nil, ih, appendHistory_drop]

/-- Spec of the max/min fold of `calculateStats`: the running extrema either
stay at their seeds or land on a list element, and they bound the seed and
every element. -/
theorem foldl_statsFold_spec (l : List Int) : ∀ a b : Int,
    ((l.foldl statsFold (a, b)).1 = a ∨ (l.foldl statsFold (a, b)).1 ∈ l) ∧
    a ≤ (l.foldl statsFold (a, b)).1 ∧ (∀ x ∈ l, x ≤ (l.foldl statsFold (a, b)).1) ∧
    ((l.foldl statsFold (a, b)).2 = b ∨ (l.foldl statsFold (a, b)).2 ∈ l) ∧
    (l.foldl statsFold (a, b)).2 ≤ b ∧ (∀ x ∈ l, (l.foldl statsFold (a, b)).2 ≤ x) := by
  induction l with
  | nil =>
      intro a b
      exact ⟨Or.inl rfl, le_refl _, by simp, Or.inl rfl, le_refl _, by simp⟩
  | cons y ys ih =>
      intro a b
      rw [List.foldl_cons]
      have hsf : statsFold (a, b) y = (if y > a then y else a, if y < b then y else b) := rfl
      rw [hsf]
      obtain ⟨h1, h2, h3, h4, h5, h6⟩ := ih (if y > a then y else a) (if y < b then y else b)
      have hamax : a ≤ (if y > a then y else a) := by split <;> omega
      have hymax : y ≤ (if y > a then y else a) := by split <;> omega
      have hbmin : (if y < b then y else b) ≤ b := by split <;> omega
      have hymin : (if y < b then y else b) ≤ y := by split <;> omega
      refine ⟨?_, le_trans hamax h2, ?_, ?_, le_trans h5 hbmin, ?_⟩
      · rcases h1 with h | h
        · by_cases hy : y > a
          · rw [h, if_pos hy]; exact Or.inr (List.mem_cons_self _ _)
          · rw [h, if_neg hy]; exact Or.inl rfl
        · exact Or.inr (List.mem_cons_of_mem _ h)
      · intro x hx
        rcases List.mem_cons.mp hx with h | h
        · subst h; exact le_trans hymax h2
        · exact h3 x h
      · rcases h4 with h | h
        · by_cases hy : y < b
          · rw [h, if_pos hy]; exact Or.inr (List.mem_cons_self _ _)
          · rw [h, if_neg hy]; exact Or.inl rfl
        · exact Or.inr (List.mem_cons_of_mem _ h)
      · intro x hx
        rcases List.mem_cons.mp hx with h | h
        · subst h; exact le_trans h5 hymin
        · exact h6 x h

/-- Maximum returned by `calculateStats` on a non-empty list is an element. -/
theorem calculateStats_max_mem (v : Int) (ps : List Int) :
    (calculateStats (v :: ps)).1 ∈ v :: ps := by
  have h := foldl_statsFold_spec (v :: ps) v v
  rcases h.1 with h1 | h1
  · rw [calculateStats, h1]; exact List.mem_cons_self _ _
  · rw [calculateStats]; exact h1

/-- Minimum returned by `calculateStats` on a non-empty list is an element. -/
theorem calculateStats_min_mem (v : Int) (ps : List Int) :
    (calculateStats (v :: ps)).2 ∈ v :: ps := by
  have h := foldl_statsFold_spec (v :: ps) v v
  rcases h.2.2.2.1 with h1 | h1
  · rw [calculateStats, h1]; exact List.mem_cons_self _ _
  · rw [calculateStats]; exact h1

/-- Every element is bounded above by the `calculateStats` maximum. -/
theorem calculateStats_le_max (v : Int) (ps : List Int) :
    ∀ x ∈ v :: ps, x ≤ (calculateStats (v :: ps)).1 := by
  have h := foldl_statsFold_spec (v :: ps) v v
  intro x hx
  exact h.2.2.1 x hx

/-- Every element is bounded below by the `calculateStats` minimum. -/
theorem calculateStats_min_le (v : Int) (ps : List Int) :
    ∀ x ∈ v :: ps, (calculateStats (v :: ps)).2 ≤ x := by
  have h := foldl_statsFold_spec (v :: ps) v v
  intro x hx
  exact h.2.2.2.2.2 x hx

/-- Appended value survives the capacity trim. -/
theorem self_mem_appendHistory (h : List Int) (v : Int) : v ∈ appendHistory h v := by
  unfold appendHistory
  by_cases hl : (h ++ [v]).length > MAX_HISTORY_SIZE
  · rw [if_pos hl]
    have hk : (h ++ [v]).length - MAX_HISTORY_SIZE ≤ h.length := by
      simp only [List.length_append, List.length_cons, List.length_nil, MAX_HISTORY_SIZE]
      omega
    rw [List.drop_append_of_le_length hk]
    simp
  · rw [if_neg hl]; simp

/-- Appending to the empty window yields the singleton window. -/
theorem appendHistory_nil (v : Int) : appendHistory [] v = [v] := by
  unfold appendHistory MAX_HISTORY_SIZE
  norm_num

/-! Claim theorems. -/

/-- C1: `detectBuySignal` conforms to the reference definition: for every
record with non-negative `high24h`, `low24h`, `priceWei`, it agrees with
`detectBuySignalSpec` (average by integer floor division, `(false, 0)` when
the average is zero or the price is at least the average, otherwise the
integer-domain savings percentage with the fixed `> 10` threshold); and with
`high=120, low=80`: price 85 gives `(true, 15)`, price 95 gives `(false, 5)`,
price 100 gives `(false, 0)`. -/
theorem C1_detect_buy_signal_conforms :
    (∀ d : GasPriceData, 0 ≤ d.high24h → 0 ≤ d.low24h → 0 ≤ d.priceWei →
      detectBuySignal d = detectBuySignalSpec d) ∧
    detectBuySignal ⟨"ethereum", 85, 120, 80, 0⟩ = (true, 15) ∧
    detectBuySignal ⟨"ethereum", 95, 120, 80, 0⟩ = (false, 5) ∧
    detectBuySignal ⟨"ethereum", 100, 120, 80, 0⟩ = (false, 0) := by
  refine ⟨?_, by decide, by decide, by decide⟩
  intro d hh hl hp
  have h2 : Int.fdiv (d.high24h + d.low24h) 2 = Int.tdiv (d.high24h + d.low24h) 2 :=
    Int.fdiv_eq_tdiv (by omega) (by omega)
  simp only [detectBuySignal, detectBuySignalSpec, jsDiv, h2]
  by_cases hc : Int.tdiv (d.high24h + d.low24h) 2 = 0 ∨
      d.priceWei ≥ Int.tdiv (d.high24h + d.low24h) 2
  · rw [if_pos hc, if_pos hc]
  · rw [if_neg hc, if_neg hc]
    push_neg at hc
    obtain ⟨hne, hlt⟩ := hc
    have havg0 : 0 ≤ Int.tdiv (d.high24h + d.low24h) 2 :=
      Int.tdiv_nonneg (by omega) (by omega)
    have hnum : 0 ≤ (Int.tdiv (d.high24h + d.low24h) 2 - d.priceWei) * 100 :=
      mul_nonneg (by omega) (by norm_num)
    rw [Int.fdiv_eq_tdiv hnum havg0]

/-- Witness for C1 at the record `high=120, low=80, price=85`. -/
theorem C1_witness :
    (0:Int) ≤ 120 ∧ (0:Int) ≤ 80 ∧ (0:Int) ≤ 85 ∧
    detectBuySignal ⟨"ethereum", 85, 120, 80, 0⟩ =
      detectBuySignalSpec ⟨"ethereum", 85, 120, 80, 0⟩ :=
  ⟨by norm_num, by norm_num, by norm_num,
    C1_detect_buy_signal_conforms.1 ⟨"ethereum", 85, 120, 80, 0⟩
      (by norm_num) (by norm_num) (by norm_num)⟩

/-- C2: the per-source history window is bounded by `MAX_HISTORY_SIZE = 1000`
and strictly FIFO: after any sequence of appends starting from the empty
window, the length is at most 1000, and the retained values are exactly the
most recent `min(n, 1000)` appended values in arrival order (the suffix of the
appended sequence), the oldest values being the ones evicted. -/
theorem C2_history_window_bounded_fifo (vals : List Int) :
    (vals.foldl appendHistory []).length ≤ MAX_HISTORY_SIZE ∧
    vals.foldl appendHistory [] = vals.drop (vals.length - MAX_HISTORY_SIZE) := by
  refine ⟨?_, foldl_appendHistory vals⟩
  rw [foldl_appendHistory, List.length_drop]
  omega

/-- C3: on every non-empty window, `calculateStats` returns exactly the
maximum and minimum of the contents (each extremum is an element and bounds
all elements); a single-element window gives `max = min = that element`; and
arithmetic is exact arbitrary-precision: a value exceeding `2^64` appended to
a fresh window is read back via the stats exactly. -/
theorem C3_calculate_stats_exact (v : Int) (ps : List Int) :
    ((calculateStats (v :: ps)).1 ∈ v :: ps ∧
     (∀ x ∈ v :: ps, x ≤ (calculateStats (v :: ps)).1) ∧
     (calculateStats (v :: ps)).2 ∈ v :: ps ∧
     (∀ x ∈ v :: ps, (calculateStats (v :: ps)).2 ≤ x)) ∧
    calculateStats [v] = (v, v) ∧
    (2 ^ 64 < v → calculateStats (appendHistory [] v) = (v, v)) := by
  refine ⟨⟨calculateStats_max_mem v ps, calculateStats_le_max v ps,
          calculateStats_min_mem v ps, calculateStats_min_le v ps⟩, ?_, ?_⟩
  · simp [calculateStats, statsFold]
  · intro hv
    rw [appendHistory_nil]
    simp [calculateStats, statsFold]

/-- Witness for C3 at the value `2^64 + 1`, exceeding `2^64`. -/
theorem C3_witness :
    (2:Int) ^ 64 < 2 ^ 64 + 1 ∧
    calculateStats (appendHistory [] ((2:Int) ^ 64 + 1)) = (2 ^ 64 + 1, 2 ^ 64 + 1) :=
  ⟨by norm_num, (C3_calculate_stats_exact (2 ^ 64 + 1) []).2.2 (by norm_num)⟩

/-- C4: processing the very first value of a source (its history is still
empty) yields a record whose high and low are both that value itself — never
the `(0, 0)` sentinel of the empty window — and no buy signal is detected on
such a record. -/
theorem C4_first_sample_no_sentinel (name : String) (v t : Int) (hist : HistoryMap)
    (h : hist name = []) :
    (fetchChainGasPrice name (FetchOutcome.ok v) t hist).1 =
      some ⟨name, v, v, v, t⟩ ∧
    (detectBuySignal ⟨name, v, v, v, t⟩).1 = false := by
  constructor
  · simp only [fetchChainGasPrice, h, appendHistory_nil]
    simp [calculateStats, statsFold]
  · simp only [detectBuySignal, jsDiv]
    have h2 : Int.tdiv (v + v) 2 = v := by
      have hvv : v + v = v * 2 := by ring
      rw [hvv, Int.mul_tdiv_cancel _ (by norm_num)]
    simp only [h2]
    rw [if_pos (Or.inr (le_refl v))]

/-- Witness for C4: first sample of value 7 for a fresh source. -/
theorem C4_witness :
    ((fun _ : String => ([] : List Int)) "ethereum" = []) ∧
    (fetchChainGasPrice "ethereum" (FetchOutcome.ok 7) 0 (fun _ => [])).1 =
      some ⟨"ethereum", 7, 7, 7, 0⟩ :=
  ⟨rfl, (C4_first_sample_no_sentinel "ethereum" 7 0 (fun _ => []) rfl).1⟩

/-- Characterisation of a successful `fetchChainGasPrice`: the record carries
the chain name, the fetched price, and the stats of the updated history. -/
theorem fetchChainGasPrice_some {name : String} {outcome : FetchOutcome} {t : Int}
    {hist : HistoryMap} {r : GasPriceData}
    (h : (fetchChainGasPrice name outcome t hist).1 = some r) :
    r.chain = name ∧ outcome = FetchOutcome.ok r.priceWei ∧
    r.high24h = (calculateStats (appendHistory (hist name) r.priceWei)).1 ∧
    r.low24h = (calculateStats (appendHistory (hist name) r.priceWei)).2 := by
  cases outcome with
  | noData => simp [fetchChainGasPrice] at h
  | error => simp [fetchChainGasPrice] at h
  | ok g =>
      simp only [fetchChainGasPrice] at h
      have h' := Option.some.inj h
      subst h'
      exact ⟨rfl, rfl, rfl, rfl⟩

/-- Failed `fetchChainGasPrice` returns `null` and leaves the whole history
map untouched. -/
theorem fetchChainGasPrice_fail {name : String} {outcome : FetchOutcome} {t : Int}
    {hist : HistoryMap} (h : outcome.isOk = false) :
    fetchChainGasPrice name outcome t hist = (none, hist) := by
  cases outcome with
  | ok g => simp [FetchOutcome.isOk] at h
  | noData => rfl
  | error => rfl

/-- Histories of other sources are untouched by `fetchChainGasPrice`. -/
theorem fetchChainGasPrice_snd_other {name : String} {outcome : FetchOutcome} {t : Int}
    {hist : HistoryMap} {n : String} (h : n ≠ name) :
    (fetchChainGasPrice name outcome t hist).2 n = hist n := by
  cases outcome with
  | noData => rfl
  | error => rfl
  | ok g => simp [fetchChainGasPrice, h]

/-- Every non-`null` result of the fetch sequence is produced by
`fetchChainGasPrice` on some chain name and some intermediate history map. -/
theorem fetchSeq_mem_some (outcomes : String → FetchOutcome) (t : Int) :
    ∀ (cs : List ChainConfig) (hist : HistoryMap) (r : GasPriceData),
      some r ∈ (fetchSeq outcomes t cs hist).1 →
      ∃ (name : String) (h2 : HistoryMap),
        (fetchChainGasPrice name (outcomes name) t h2).1 = some r := by
  intro cs
  induction cs with
  | nil => intro hist r hr; simp [fetchSeq] at hr
  | cons c cs ih =>
      intro hist r hr
      simp only [fetchSeq] at hr
      rcases List.mem_cons.mp hr with h | h
      · exact ⟨c.name, hist, h.symm⟩
      · exact ih _ r h

/-- History of a source whose fetch outcome is a failure is untouched by the
whole fetch sequence. -/
theorem fetchSeq_hist_fail (outcomes : String → FetchOutcome) (t : Int) :
    ∀ (cs : List ChainConfig) (hist : HistoryMap) (n : String),
      (outcomes n).isOk = false →
      (fetchSeq outcomes t cs hist).2 n = hist n := by
  intro cs
  induction cs with
  | nil => intro hist n h; rfl
  | cons c cs ih =>
      intro hist n h
      simp only [fetchSeq]
      rw [ih _ n h]
      by_cases hn : n = c.name
      · subst hn
        rw [fetchChainGasPrice_fail h]
      · exact fetchChainGasPrice_snd_other hn

/-- Every listed chain with a successful outcome contributes a record bearing
its name to the fetch sequence. -/
theorem fetchSeq_present (outcomes : String → FetchOutcome) (t : Int) :
    ∀ (cs : List ChainConfig) (hist : HistoryMap) (c : ChainConfig),
      c ∈ cs → (outcomes c.name).isOk = true →
      ∃ r : GasPriceData, some r ∈ (fetchSeq outcomes t cs hist).1 ∧ r.chain = c.name := by
  intro cs
  induction cs with
  | nil => intro hist c hc _; simp at hc
  | cons c' cs ih =>
      intro hist c hc hok
      rcases List.mem_cons.mp hc with h | h
      · subst h
        cases ho : outcomes c.name with
        | noData => rw [ho] at hok; simp [FetchOutcome.isOk] at hok
        | error => rw [ho] at hok; simp [FetchOutcome.isOk] at hok
        | ok g =>
            have hstep : (fetchChainGasPrice c.name (outcomes c.name) t hist).1 =
                some ⟨c.name, g, (calculateStats (appendHistory (hist c.name) g)).1,
                  (calculateStats (appendHistory (hist c.name) g)).2, t⟩ := by
              rw [ho]; rfl
            refine ⟨⟨c.name, g, (calculateStats (appendHistory (hist c.name) g)).1,
              (calculateStats (appendHistory (hist c.name) g)).2, t⟩, ?_, rfl⟩
            simp only [fetchSeq]
            exact List.mem_cons.mpr (Or.inl hstep.symm)
      · obtain ⟨r, hr, hchain⟩ :=
          ih (fetchChainGasPrice c'.name (outcomes c'.name) t hist).2 c h hok
        refine ⟨r, ?_, hchain⟩
        simp only [fetchSeq]
        exact List.mem_cons.mpr (Or.inr hr)

/-- When every listed chain fails, the fetch sequence is all `null`. -/
theorem fetchSeq_all_fail (outcomes : String → FetchOutcome) (t : Int) :
    ∀ (cs : List ChainConfig) (hist : HistoryMap),
      (∀ c ∈ cs, (outcomes c.name).isOk = false) →
      ∀ o ∈ (fetchSeq outcomes t cs hist).1, o = none := by
  intro cs
  induction cs with
  | nil => intro hist _ o ho; simp [fetchSeq] at ho
  | cons c cs ih =>
      intro hist hall o ho
      simp only [fetchSeq] at ho
      rcases List.mem_cons.mp ho with h | h
      · rw [fetchChainGasPrice_fail (hall c (List.mem_cons_self _ _))] at h
        exact h
      · exact ih _ (fun c' hc' => hall c' (List.mem_cons_of_mem _ hc')) o h

/-- C6: a cycle tolerates individual source failure: `fetchAllGasPrices`
returns exactly the records of the succeeding enabled sources (each record
stems from a successful outcome, and every succeeding enabled source is
present), the history window of a failed source receives no entry, and if every
source fails the batch is empty. -/
theorem C6_partial_failure_tolerated (chains : List ChainConfig)
    (outcomes : String → FetchOutcome) (t : Int) (hist : HistoryMap) :
    (∀ r ∈ (fetchAllGasPrices chains outcomes t hist).1,
      outcomes r.chain = FetchOutcome.ok r.priceWei) ∧
    (∀ c ∈ chains, c.enabled = true → (outcomes c.name).isOk = true →
      ∃ r ∈ (fetchAllGasPrices chains outcomes t hist).1, r.chain = c.name) ∧
    (∀ n : String, (outcomes n).isOk = false →
      (fetchAllGasPrices chains outcomes t hist).2 n = hist n) ∧
    ((∀ c ∈ chains, (outcomes c.name).isOk = false) →
      (fetchAllGasPrices chains outcomes t hist).1 = []) := by
  refine ⟨?_, ?_, ?_, ?_⟩
  · intro r hr
    simp only [fetchAllGasPrices] at hr
    obtain ⟨o, ho, hor⟩ := List.mem_filterMap.mp hr
    have ho2 : some r ∈
        (fetchSeq outcomes t (chains.filter fun c => c.enabled) hist).1 := by
      have ho3 : o = some r := by simpa using hor
      rwa [ho3] at ho
    obtain ⟨nm, h2, hfc⟩ := fetchSeq_mem_some outcomes t _ _ r ho2
    obtain ⟨hchain, hout, -, -⟩ := fetchChainGasPrice_some hfc
    rw [hchain]
    exact hout
  · intro c hc hen hok
    have hc' : c ∈ chains.filter (fun c => c.enabled) := List.mem_filter.mpr ⟨hc, hen⟩
    obtain ⟨r, hr, hchain⟩ := fetchSeq_present outcomes t _ hist c hc' hok
    refine ⟨r, ?_, hchain⟩
    simp only [fetchAllGasPrices]
    exact List.mem_filterMap.mpr ⟨some r, hr, rfl⟩
  · intro n hn
    simp only [fetchAllGasPrices]
    exact fetchSeq_hist_fail outcomes t _ hist n hn
  · intro hall
    simp only [fetchAllGasPrices]
    refine List.filterMap_eq_nil_iff.mpr ?_
    intro o ho
    have hnone := fetchSeq_all_fail outcomes t _ hist
      (fun c hc => hall c (List.mem_filter.mp hc).1) o ho
    rw [hnone]
    rfl

/-- Witness for C6: two chains, `base` failing; its history is untouched. -/
theorem C6_witness :
    ((fun n : String => if n = "base" then FetchOutcome.error else FetchOutcome.ok 5)
        "base").isOk = false ∧
    (fetchAllGasPrices [⟨"ethereum", "u", true⟩, ⟨"base", "u", true⟩]
        (fun n => if n = "base" then FetchOutcome.error else FetchOutcome.ok 5)
        0 (fun _ => [])).2 "base" = (fun _ : String => ([] : List Int)) "base" :=
  ⟨by decide,
    (C6_partial_failure_tolerated [⟨"ethereum", "u", true⟩, ⟨"base", "u", true⟩]
      (fun n => if n = "base" then FetchOutcome.error else FetchOutcome.ok 5)
      0 (fun _ => [])).2.2.1 "base" (by decide)⟩

/-- C9: every record produced by a successful fetch satisfies
`low24h ≤ priceWei ≤ high24h` (hence `low24h ≤ high24h`), because the new
sample is appended to the history before its max/min are computed; the same
holds for every record of a `fetchAllGasPrices` batch. -/
theorem C9_price_within_bounds :
    (∀ (name : String) (outcome : FetchOutcome) (t : Int) (hist : HistoryMap)
        (r : GasPriceData),
      (fetchChainGasPrice name outcome t hist).1 = some r →
      r.low24h ≤ r.priceWei ∧ r.priceWei ≤ r.high24h ∧ r.low24h ≤ r.high24h) ∧
    (∀ (chains : List ChainConfig) (outcomes : String → FetchOutcome) (t : Int)
        (hist : HistoryMap) (r : GasPriceData),
      r ∈ (fetchAllGasPrices chains outcomes t hist).1 →
      r.low24h ≤ r.priceWei ∧ r.priceWei ≤ r.high24h ∧ r.low24h ≤ r.high24h) := by
  have main : ∀ (name : String) (outcome : FetchOutcome) (t : Int) (hist : HistoryMap)
      (r : GasPriceData), (fetchChainGasPrice name outcome t hist).1 = some r →
      r.low24h ≤ r.priceWei ∧ r.priceWei ≤ r.high24h ∧ r.low24h ≤ r.high24h := by
    intro name outcome t hist r h
    obtain ⟨-, -, hhigh, hlow⟩ := fetchChainGasPrice_some h
    have hmem : r.priceWei ∈ appendHistory (hist name) r.priceWei :=
      self_mem_appendHistory _ _
    cases hc : appendHistory (hist name) r.priceWei with
    | nil => rw [hc] at hmem; simp at hmem
    | cons w ws =>
        rw [hc] at hmem hhigh hlow
        have h1 := calculateStats_le_max w ws r.priceWei hmem
        have h2 := calculateStats_min_le w ws r.priceWei hmem
        rw [← hhigh] at h1
        rw [← hlow] at h2
        exact ⟨h2, h1, le_trans h2 h1⟩
  refine ⟨main, ?_⟩
  intro chains outcomes t hist r hr
  simp only [fetchAllGasPrices] at hr
  obtain ⟨o, ho, hor⟩ := List.mem_filterMap.mp hr
  have ho2 : some r ∈
      (fetchSeq outcomes t (chains.filter fun c => c.enabled) hist).1 := by
    have ho3 : o = some r := by simpa using hor
    rwa [ho3] at ho
  obtain ⟨nm, h2, hfc⟩ := fetchSeq_mem_some outcomes t _ _ r ho2
  exact main nm (outcomes nm) t h2 r hfc

/-- Witness for C9: a fetched value 5 on a fresh source, bounds hold. -/
theorem C9_witness :
    (fetchChainGasPrice "ethereum" (FetchOutcome.ok 5) 0 (fun _ => [])).1 =
      some ⟨"ethereum", 5, 5, 5, 0⟩ ∧
    (5:Int) ≤ 5 ∧ (5:Int) ≤ 5 ∧ (5:Int) ≤ 5 := by
  have hfc : (fetchChainGasPrice "ethereum" (FetchOutcome.ok 5) 0 (fun _ => [])).1 =
      some ⟨"ethereum", 5, 5, 5, 0⟩ := by decide
  exact ⟨hfc, C9_price_within_bounds.1 "ethereum" (FetchOutcome.ok 5) 0 (fun _ => [])
    ⟨"ethereum", 5, 5, 5, 0⟩ hfc⟩

/-- C5 is false on this code: `index.ts` installs `runUpdateCycle` directly as
the interval handler with no in-flight guard, so a tick that fires while the
previous cycle is still running starts a second concurrent cycle instead of
being skipped.  Two consecutive ticks with no completion in between leave two
cycles in flight, refuting the at-most-one-concurrent-cycle claim. -/
theorem C5_counterexample :
    (runSched [SchedEvent.tick, SchedEvent.tick]).inFlight = 2 ∧
    ¬ (∀ events : List SchedEvent, (runSched events).inFlight ≤ 1) := by
  refine ⟨rfl, fun h => ?_⟩
  exact absurd (h [SchedEvent.tick, SchedEvent.tick]) (by decide)

/-- C5 amended: ticks are never skipped — every fixed-interval tick invokes
`runUpdateCycle` unconditionally, starting one more in-flight cycle regardless
of how many cycles are already running, so overlapping cycles can accumulate
without bound. -/
theorem C5_amended_tick_always_starts_cycle (events : List SchedEvent) :
    (runSched (events ++ [SchedEvent.tick])).inFlight = (runSched events).inFlight + 1 := by
  simp [runSched, List.foldl_append, schedStep, tickStep]

/-- C7: counter semantics of `runUpdateCycle`: `updateCount` is incremented
exactly when the batch is non-empty and the publish phase did not throw,
`errorCount` exactly when an exception escaped the cycle body (only possible
on a non-empty batch, since absorbed per-source failures never throw), an
empty batch increments neither, and every scheduler step leaves both counters
non-decreasing. -/
theorem C7_counter_semantics (s : BotState) (batch : List GasPriceData)
    (publishThrew : Bool) :
    ((completeStep s (runUpdateCycleOutcome batch publishThrew)).updateCount
        = s.updateCount + 1 ↔ batch ≠ [] ∧ publishThrew = false) ∧
    ((completeStep s (runUpdateCycleOutcome batch publishThrew)).errorCount
        = s.errorCount + 1 ↔ batch ≠ [] ∧ publishThrew = true) ∧
    (batch = [] →
      (completeStep s (runUpdateCycleOutcome batch publishThrew)).updateCount
          = s.updateCount ∧
      (completeStep s (runUpdateCycleOutcome batch publishThrew)).errorCount
          = s.errorCount) ∧
    (∀ e : SchedEvent, s.updateCount ≤ (schedStep s e).updateCount ∧
      s.errorCount ≤ (schedStep s e).errorCount) := by
  refine ⟨?_, ?_, ?_, ?_⟩
  · cases batch with
    | nil => simp [runUpdateCycleOutcome, completeStep]
    | cons x xs =>
        cases publishThrew with
        | false => simp [runUpdateCycleOutcome, completeStep]
        | true => simp [runUpdateCycleOutcome, completeStep]
  · cases batch with
    | nil => simp [runUpdateCycleOutcome, completeStep]
    | cons x xs =>
        cases publishThrew with
        | false => simp [runUpdateCycleOutcome, completeStep]
        | true => simp [runUpdateCycleOutcome, completeStep]
  · intro hb
    subst hb
    simp [runUpdateCycleOutcome, completeStep]
  · intro e
    cases e with
    | tick => simp [schedStep, tickStep]
    | complete o => cases o <;> simp [schedStep, completeStep]

/-- Witness for C7: a one-record batch with no publish exception bumps
`updateCount`. -/
theorem C7_witness :
    (completeStep initialBotState
      (runUpdateCycleOutcome [⟨"ethereum", 1, 1, 1, 0⟩] false)).updateCount =
      initialBotState.updateCount + 1 :=
  (C7_counter_semantics initialBotState [⟨"ethereum", 1, 1, 1, 0⟩] false).1.mpr
    ⟨by simp, rfl⟩

/-- C8: a configuration missing a required sink credential (private key,
oracle object id, admin cap id) is reported invalid by `validateConfig`, and
`main` then exits before entering the scheduling loop; the loop is entered
only when validation passes. -/
theorem C8_config_errors_fatal (config : Config) (keyParseOk healthOk : Bool) :
    ((config.sui.privateKey = "" ∨ config.sui.oracleObjectId = "0x0" ∨
        config.sui.adminCapId = "0x0") →
      (validateConfig config).1 = false ∧
      mainOutcome config keyParseOk healthOk = MainOutcome.exitConfigError) ∧
    (mainOutcome config keyParseOk healthOk = MainOutcome.entersLoop →
      (validateConfig config).1 = true) := by
  constructor
  · intro h
    have hval : (validateConfig config).1 = false := by
      simp only [validateConfig, List.filter_append, List.length_append]
      rcases h with h | h | h
      · rw [if_pos h]
        have m1 : (List.filter (fun e => !(strIncludes e demoModeTag))
            ["SUI_PRIVATE_KEY is required"]).length = 1 := by decide
        rw [m1, beq_eq_false_iff_ne]
        omega
      · rw [if_pos h]
        have m3 : (List.filter (fun e => !(strIncludes e demoModeTag))
            ["ORACLE_OBJECT_ID not set"]).length = 1 := by decide
        rw [m3, beq_eq_false_iff_ne]
        omega
      · rw [if_pos h]
        have m4 : (List.filter (fun e => !(strIncludes e demoModeTag))
            ["ADMIN_CAP_ID not set"]).length = 1 := by decide
        rw [m4, beq_eq_false_iff_ne]
        omega
    refine ⟨hval, ?_⟩
    simp [mainOutcome, hval]
  · intro h
    by_cases hval : (validateConfig config).1 = true
    · exact hval
    · exfalso
      have hval' : (validateConfig config).1 = false := by
        cases hb : (validateConfig config).1
        · rfl
        · exact absurd hb hval
      simp [mainOutcome, hval'] at h

/-- Witness for C8: a config with an empty private key is invalid and exits
before the loop. -/
theorem C8_witness :
    (("" : String) = "" ∨ ("0xB" : String) = "0x0" ∨ ("0xC" : String) = "0x0") ∧
    (validateConfig ⟨⟨"testnet", "", "0xA", "0xB", "0xC"⟩, [], 500, 5⟩).1 = false ∧
    mainOutcome ⟨⟨"testnet", "", "0xA", "0xB", "0xC"⟩, [], 500, 5⟩ true true =
      MainOutcome.exitConfigError :=
  ⟨Or.inl rfl,
    (C8_config_errors_fatal ⟨⟨"testnet", "", "0xA", "0xB", "0xC"⟩, [], 500, 5⟩ true true).1
      (Or.inl rfl)⟩

/-- C10: the publisher silently drops zero prices: `publishSingleUpdate`
builds no transaction when the price of the record is zero; `publishBatchUpdate`
filters all zero-price records out before submission (the submitted price
vector is exactly the non-zero prices, containing no zero) and builds no
transaction when every record has price zero. -/
theorem C10_publisher_drops_zero_prices :
    (∀ d : GasPriceData, d.priceWei = 0 → publishSingleUpdate d = none) ∧
    (∀ dataArray : List GasPriceData, (∀ d ∈ dataArray, d.priceWei = 0) →
      publishBatchUpdate dataArray = none) ∧
    (∀ (dataArray : List GasPriceData) (payload : List String × List Int),
      publishBatchUpdate dataArray = some payload →
      payload.2 = (dataArray.filter (fun d => decide (d.priceWei ≠ 0))).map
        (fun d => d.priceWei) ∧ (0:Int) ∉ payload.2) := by
  refine ⟨?_, ?_, ?_⟩
  · intro d h
    simp [publishSingleUpdate, h]
  · intro arr h
    simp only [publishBatchUpdate]
    have hfil : arr.filter (fun d => decide (d.priceWei ≠ 0)) = [] := by
      rw [List.filter_eq_nil_iff]
      intro a ha
      simp [h a ha]
    rw [hfil]
    rfl
  · intro arr payload h
    simp only [publishBatchUpdate] at h
    by_cases hl : (arr.filter (fun d => decide (d.priceWei ≠ 0))).length = 0
    · rw [if_pos hl] at h
      exact absurd h (by simp)
    · rw [if_neg hl] at h
      have hp := Option.some.inj h
      constructor
      · rw [← hp]
      · rw [← hp]
        intro hmem
        obtain ⟨d, hd, hdp⟩ := List.mem_map.mp hmem
        have hd2 := (List.mem_filter.mp hd).2
        simp at hd2
        exact hd2 hdp

/-- Witness for C10: a zero-price record is dropped by the single publisher. -/
theorem C10_witness :
    ((⟨"ethereum", 0, 0, 0, 0⟩ : GasPriceData).priceWei = 0) ∧
    publishSingleUpdate ⟨"ethereum", 0, 0, 0, 0⟩ = none :=
  ⟨rfl, C10_publisher_drops_zero_prices.1 ⟨"ethereum", 0, 0, 0, 0⟩ rfl⟩

end OracleBot
